import Mathlib

/-!
Verification of the mixpoint audio-mixing engine.

This file gives a shallow embedding, in Lean 4, of the engine's core
operations (beat-grid calculation, playback transport, crossfade mixer,
stem lifecycle checks, track-cache writes and the event dispatcher) and
proves or refutes the specified properties about them.

JavaScript `number` values that the source manipulates exactly
(times in seconds, bpm, offsets, slider values, volumes) are modelled as
rationals; the crossfade curve, which uses `Math.cos`, is modelled over
the reals.  A JavaScript value that may be `undefined` is modelled as an
`Option`; JavaScript truthiness on numbers (`undefined`, `0` and `NaN`
are falsy) is modelled explicitly.
-/

namespace Mixpoint

/-- JS truthiness of a possibly-undefined number: `undefined` and `0` are falsy. -/
def jsTruthyQ : Option ℚ → Bool
  | none => false
  | some q => q != 0

/-- JS `a || b` on a possibly-undefined number `a` with default `b`. -/
def jsOrQ (a : Option ℚ) (b : ℚ) : ℚ :=
  if jsTruthyQ a then a.getD 0 else b

/-! ## Beat Grid Calculator (`calcRegions` in `__dbSchema.ts`) -/

/-- The backward stepping loop of `calcRegions`:
`while (startPoint - beatInterval > 0) startPoint -= beatInterval`,
run with explicit fuel (the caller supplies enough fuel for the loop
to reach its fixpoint). -/
def backStep : ℕ → ℚ → ℚ → ℚ
  | 0, sp, _ => sp
  | fuel + 1, sp, bi => if sp - bi > 0 then backStep fuel (sp - bi) bi else sp

/-- Zero time of the beat grid: the backward loop run to completion
(the fuel `⌈sp/bi⌉ + 1` dominates the number of iterations). -/
def zeroTimeOf (sp bi : ℚ) : ℚ :=
  backStep (⌈sp / bi⌉.toNat + 1) sp bi

/-- The forward region loop of `calcRegions`:
`for (let time = startPoint; time < duration; time += skipLength)`,
collecting the region start times, run with explicit fuel. -/
def regionTimes : ℕ → ℚ → ℚ → ℚ → List ℚ
  | 0, _, _, _ => []
  | fuel + 1, t, d, s => if t < d then t :: regionTimes fuel (t + s) d s else []

/-- Track record: the fields of `Track` that `calcRegions` reads. -/
structure TrackRec where
  name : String
  duration : Option ℚ
  bpm : Option ℚ
  offset : Option ℚ
  adjustedOffset : Option ℚ
deriving Repr, DecidableEq

/-- Per-track persisted state read by `calcRegions` (`TrackState`). -/
structure TrackStateRec where
  adjustedBpm : Option ℚ
  beatResolution : Option ℚ
deriving Repr, DecidableEq

/-- Result of `calcRegions` (each emitted region also carries an `end`
equal to `start + skipLength` plus constant display fields; the marker
position is the `start`, collected in order in `regionStarts`). -/
structure RegionsResult where
  duration : ℚ
  adjustedBpm : Option ℚ
  skipLength : ℚ
  beatResolution : ℚ
  regionStarts : List ℚ
deriving Repr, DecidableEq

/-- `calcRegions(track, partialTrackState)` from `__dbSchema.ts`.
`analyze` models the external best-effort analysis collaborator
(`analyzeTracks`), which may fill in `duration`, `bpm` and `offset`;
`state` is the merged `{...prevTrackState, ...partialTrackState}`.
`isNaN(Number(x))` on a possibly-undefined number is `x.isNone`, and
`!duration` is the falsiness of `duration` (absent or zero). -/
def calcRegions (analyze : TrackRec → TrackRec) (track : TrackRec)
    (state : TrackStateRec) : Except String RegionsResult :=
  let valsMissing := !jsTruthyQ track.duration || track.bpm.isNone || track.offset.isNone
  let t := if valsMissing then analyze track else track
  if !jsTruthyQ t.duration then
    .error ("Please try adding " ++ track.name ++ " again.")
  else
    let duration := t.duration.getD 0
    let beatResolution := state.beatResolution.getD (1/4)
    let beatInterval := 60 / jsOrQ state.adjustedBpm (jsOrQ t.bpm 1)
    let startPoint := jsOrQ track.adjustedOffset (jsOrQ t.offset 0)
    let skipLength := beatInterval * (1 / beatResolution)
    let zeroTime := zeroTimeOf startPoint beatInterval
    let starts := regionTimes (⌈(duration - zeroTime) / skipLength⌉.toNat + 1)
      zeroTime duration skipLength
    .ok ⟨duration, state.adjustedBpm, skipLength, beatResolution, starts⟩

/-! ### Loop characterizations -/

/-- With sufficient fuel, the backward loop reaches its fixpoint: the
result is `sp` minus a whole number of beat intervals, and one further
subtraction would not stay positive. -/
theorem backStep_fix (bi : ℚ) (hbi : 0 < bi) :
    ∀ (fuel : ℕ) (sp : ℚ), ⌈sp / bi⌉.toNat < fuel →
      (∃ n : ℕ, backStep fuel sp bi = sp - n * bi) ∧
        ¬(backStep fuel sp bi - bi > 0) := by
  intro fuel
  induction fuel with
  | zero => intro sp h; omega
  | succ n ih =>
    intro sp h
    by_cases hstep : sp - bi > 0
    · have hsp : bi < sp := by linarith
      have hdiv : 1 < sp / bi := (one_lt_div hbi).mpr hsp
      have hceil2 : 2 ≤ ⌈sp / bi⌉ := by
        have := Int.lt_ceil.mpr (by exact_mod_cast hdiv : ((1 : ℤ) : ℚ) < sp / bi)
        omega
      have hsub : ⌈(sp - bi) / bi⌉ = ⌈sp / bi⌉ - 1 := by
        have hq : (sp - bi) / bi = sp / bi - 1 := by
          field_simp
        rw [hq, Int.ceil_sub_one]
      have hlt : ⌈(sp - bi) / bi⌉.toNat < n := by
        rw [hsub]; omega
      obtain ⟨⟨m, hm⟩, hfix⟩ := ih (sp - bi) hlt
      refine ⟨⟨m + 1, ?_⟩, ?_⟩
      · simp only [backStep, if_pos hstep]
        rw [hm]; push_cast; ring
      · simp only [backStep, if_pos hstep]
        exact hfix
    · refine ⟨⟨0, by simp [backStep, hstep]⟩, ?_⟩
      simp only [backStep, if_neg hstep]
      exact hstep

/-- The zero time is the fixpoint of the backward loop: it differs from
the starting point by a whole number of beat intervals and one further
subtraction would not stay positive. -/
theorem zeroTimeOf_spec (sp bi : ℚ) (hbi : 0 < bi) :
    (∃ n : ℕ, zeroTimeOf sp bi = sp - n * bi) ∧ ¬(zeroTimeOf sp bi - bi > 0) :=
  backStep_fix bi hbi _ sp (Nat.lt_succ_self _)

/-- Cons/shift form of `List.range (N+1)` mapped through an arithmetic
progression starting at `t` with step `s`. -/
theorem range_map_progression (t s : ℚ) (N : ℕ) :
    (List.range (N + 1)).map (fun k : ℕ => t + k * s) =
      t :: (List.range N).map (fun k : ℕ => (t + s) + k * s) := by
  rw [List.range_succ_eq_map, List.map_cons, List.map_map]
  congr 1
  · push_cast; ring
  · apply List.map_congr_left
    intro k _
    simp only [Function.comp_apply]
    push_cast; ring

/-- With sufficient fuel, the forward loop emits exactly the ordered,
zero-indexed arithmetic progression `t, t + s, t + 2s, …` of all the
values below `d`. -/
theorem regionTimes_spec (s : ℚ) (hs : 0 < s) :
    ∀ (fuel : ℕ) (t d : ℚ), ⌈(d - t) / s⌉.toNat < fuel →
      ∃ N : ℕ, regionTimes fuel t d s = (List.range N).map (fun k : ℕ => t + k * s) ∧
        ∀ k : ℕ, (t + k * s < d ↔ k < N) := by
  intro fuel
  induction fuel with
  | zero => intro t d h; omega
  | succ n ih =>
    intro t d h
    by_cases ht : t < d
    · have hpos : 0 < (d - t) / s := div_pos (by linarith) hs
      have hceil1 : 1 ≤ ⌈(d - t) / s⌉ := Int.ceil_pos.mpr hpos
      have hsub : ⌈(d - (t + s)) / s⌉ = ⌈(d - t) / s⌉ - 1 := by
        have hq : (d - (t + s)) / s = (d - t) / s - 1 := by
          field_simp; ring
        rw [hq, Int.ceil_sub_one]
      have hlt : ⌈(d - (t + s)) / s⌉.toNat < n := by
        rw [hsub]; omega
      obtain ⟨N, hN, hiff⟩ := ih (t + s) d hlt
      refine ⟨N + 1, ?_, ?_⟩
      · simp only [regionTimes, if_pos ht, hN]
        rw [range_map_progression]
      · intro k
        cases k with
        | zero => simpa using ht
        | succ j =>
          have hj : t + ((j + 1 : ℕ) : ℚ) * s = (t + s) + j * s := by push_cast; ring
          rw [hj, hiff j]
          omega
    · refine ⟨0, by simp [regionTimes, ht], ?_⟩
      intro k
      have hks : 0 ≤ (k : ℚ) * s := mul_nonneg (by positivity) (le_of_lt hs)
      constructor
      · intro hk; linarith
      · omega

/-- What the beat-grid claim asserts of a `calcRegions` run with
effective duration `d`, effective bpm `b`, effective offset `o` and
beat resolution `r`: the call succeeds, `skipLength = (60/b) * (1/r)`,
the zero time is obtained from `o` by whole backward beat steps with no
further positive step available, and the markers are the ordered,
zero-indexed progression `zeroTime + k * skipLength` of exactly the
values below `d`. -/
def beatGridOk (analyze : TrackRec → TrackRec) (track : TrackRec)
    (state : TrackStateRec) (d b o r : ℚ) : Prop :=
  (∃ N : ℕ,
      calcRegions analyze track state = .ok
        ⟨d, state.adjustedBpm, 60 / b * (1 / r), r,
          (List.range N).map fun k : ℕ => zeroTimeOf o (60 / b) + k * (60 / b * (1 / r))⟩ ∧
      ∀ k : ℕ, (zeroTimeOf o (60 / b) + k * (60 / b * (1 / r)) < d ↔ k < N)) ∧
  (∃ n : ℕ, zeroTimeOf o (60 / b) = o - n * (60 / b)) ∧
  ¬(zeroTimeOf o (60 / b) - 60 / b > 0)

/-- General beat-grid characterization of `calcRegions`, used by the C2
theorem both for the universal statement and for its concrete example. -/
theorem calcRegions_markers (analyze : TrackRec → TrackRec)
    (track : TrackRec) (state : TrackStateRec) (t : TrackRec) (d b o r : ℚ)
    (ht : t = if (!jsTruthyQ track.duration || track.bpm.isNone || track.offset.isNone : Bool)
      then analyze track else track)
    (hd : t.duration = some d) (hd0 : 0 < d)
    (hb : jsOrQ state.adjustedBpm (jsOrQ t.bpm 1) = b) (hb0 : 0 < b)
    (ho : jsOrQ track.adjustedOffset (jsOrQ t.offset 0) = o)
    (hr : state.beatResolution.getD (1/4) = r)
    (hrset : r = 1 ∨ r = 1/2 ∨ r = 1/4) :
    beatGridOk analyze track state d b o r := by
  have hr0 : 0 < r := by rcases hrset with h | h | h <;> simp [h]
  have hbi0 : 0 < 60 / b := by positivity
  have hskip0 : 0 < 60 / b * (1 / r) := by positivity
  refine ⟨?_, (zeroTimeOf_spec o (60 / b) hbi0).1, (zeroTimeOf_spec o (60 / b) hbi0).2⟩
  have htruthy : jsTruthyQ t.duration = true := by
    rw [hd]
    simpa [jsTruthyQ] using ne_of_gt hd0
  obtain ⟨N, hN, hiff⟩ := regionTimes_spec (60 / b * (1 / r)) hskip0
    (⌈(d - zeroTimeOf o (60 / b)) / (60 / b * (1 / r))⌉.toNat + 1)
    (zeroTimeOf o (60 / b)) d (Nat.lt_succ_self _)
  refine ⟨N, ?_, hiff⟩
  rw [calcRegions, ← ht, htruthy]
  simp only [Bool.not_true, Bool.false_eq_true, if_false]
  rw [hd, hb, ho, hr]
  simp only [Option.getD_some]
  rw [hN]

/-- C2: for every track with positive effective duration and bpm and a
beat resolution in `{1, 1/2, 1/4}`, the beat-grid calculator computes
`beatInterval = 60/b` and `skipLength = beatInterval * (1/r)`, finds the
zero time by stepping backward from the effective offset by
`beatInterval` while the result stays positive, and emits an ordered,
zero-indexed marker at exactly every `zeroTime + k * skipLength` below
the duration; in particular bpm 120, offset 0.2, duration 2.0,
resolution 1 yields the markers `[0.2, 0.7, 1.2, 1.7]`. -/
theorem calcRegions_beat_grid (analyze : TrackRec → TrackRec)
    (track : TrackRec) (state : TrackStateRec) (t : TrackRec) (d b o r : ℚ)
    (ht : t = if (!jsTruthyQ track.duration || track.bpm.isNone || track.offset.isNone : Bool)
      then analyze track else track)
    (hd : t.duration = some d) (hd0 : 0 < d)
    (hb : jsOrQ state.adjustedBpm (jsOrQ t.bpm 1) = b) (hb0 : 0 < b)
    (ho : jsOrQ track.adjustedOffset (jsOrQ t.offset 0) = o)
    (hr : state.beatResolution.getD (1/4) = r)
    (hrset : r = 1 ∨ r = 1/2 ∨ r = 1/4) :
    beatGridOk analyze track state d b o r ∧
      calcRegions id ⟨"track", some 2, some 120, some (1/5), none⟩ ⟨none, some 1⟩ =
        .ok ⟨2, none, 1/2, 1, [1/5, 7/10, 6/5, 17/10]⟩ := by
  refine ⟨calcRegions_markers analyze track state t d b o r ht hd hd0 hb hb0 ho hr hrset, ?_⟩
  have hex := calcRegions_markers id ⟨"track", some 2, some 120, some (1/5), none⟩
    ⟨none, some 1⟩ ⟨"track", some 2, some 120, some (1/5), none⟩ 2 120 (1/5) 1
    (by simp [jsTruthyQ]) rfl (by norm_num) (by simp [jsOrQ, jsTruthyQ]) (by norm_num)
    (by simp [jsOrQ, jsTruthyQ]) rfl (Or.inl rfl)
  obtain ⟨⟨N, hN, hiff⟩, -, -⟩ := hex
  have hz : zeroTimeOf (1/5) (60 / 120) = 1/5 := by
    norm_num [zeroTimeOf, backStep]
  rw [hz] at hN hiff
  have hN4 : N = 4 := by
    have h3 := (hiff 3).mp (by norm_num)
    have h4 := (hiff 4).mpr
    by_contra hne
    have : (1:ℚ)/5 + 4 * (60 / 120 * (1 / 1)) < 2 := h4 (by omega)
    norm_num at this
  rw [hN4] at hN
  rw [hN]
  have : (List.range 4).map (fun k : ℕ => (1:ℚ)/5 + k * (60 / 120 * (1 / 1))) =
      [1/5, 7/10, 6/5, 17/10] := by
    simp [List.range_succ]
    norm_num
  rw [this]
  norm_num

/-- Witness for C2 at the spec's own example: bpm 120, offset 0.2 s,
duration 2.0 s, resolution 1. -/
theorem calcRegions_beat_grid_witness :
    beatGridOk id ⟨"track", some 2, some 120, some (1/5), none⟩ ⟨none, some 1⟩ 2 120 (1/5) 1 :=
  (calcRegions_beat_grid id ⟨"track", some 2, some 120, some (1/5), none⟩
    ⟨none, some 1⟩ ⟨"track", some 2, some 120, some (1/5), none⟩ 2 120 (1/5) 1
    (by simp [jsTruthyQ]) rfl (by norm_num) (by simp [jsOrQ, jsTruthyQ]) (by norm_num)
    (by simp [jsOrQ, jsTruthyQ]) rfl (Or.inl rfl)).1

/-! ### C7: validation errors of the beat grid calculator -/

/-- Counterexample to C7: a track whose bpm is still absent after the
best-effort analysis (here the analyzer returns the track unchanged)
does **not** make the calculation raise: with duration 2, no bpm and
offset 0 the call succeeds. -/
theorem calcRegions_missing_bpm_no_error :
    (id (⟨"t", some 2, none, some 0, none⟩ : TrackRec)).bpm = none ∧
      (calcRegions id ⟨"t", some 2, none, some 0, none⟩ ⟨none, none⟩).isOk = true := by
  refine ⟨rfl, ?_⟩
  simp [calcRegions, jsTruthyQ, Except.isOk, Except.toBool]

/-- C7 (amended): the beat-grid calculation fails with the validation
error exactly when the post-analysis duration is absent (or zero); a
bpm still missing after analysis does not raise — the calculator falls
back to an effective bpm of 1 and still produces the marker grid. -/
theorem calcRegions_error_iff (analyze : TrackRec → TrackRec)
    (track : TrackRec) (state : TrackStateRec) (t : TrackRec)
    (ht : t = if (!jsTruthyQ track.duration || track.bpm.isNone || track.offset.isNone : Bool)
      then analyze track else track) :
    (calcRegions analyze track state).isOk = jsTruthyQ t.duration ∧
      ∀ d o r : ℚ, t.duration = some d → 0 < d → t.bpm = none →
        state.adjustedBpm = none →
        jsOrQ track.adjustedOffset (jsOrQ t.offset 0) = o →
        state.beatResolution.getD (1/4) = r → (r = 1 ∨ r = 1/2 ∨ r = 1/4) →
        beatGridOk analyze track state d 1 o r := by
  constructor
  · rw [calcRegions, ← ht]
    cases h : jsTruthyQ t.duration <;> simp [h, Except.isOk, Except.toBool]
  · intro d o r hd hd0 hbpm hadj ho hr hrset
    refine calcRegions_markers analyze track state t d 1 o r ht hd hd0 ?_
      one_pos ho hr hrset
    rw [hadj, hbpm]
    simp [jsOrQ, jsTruthyQ]

/-- Witness for C7 (amended) on a concrete track with duration present
and bpm absent after analysis. -/
theorem calcRegions_error_iff_witness :
    (calcRegions id ⟨"t", some 2, none, some 0, none⟩ ⟨none, none⟩).isOk =
        jsTruthyQ (some (2:ℚ)) ∧
      beatGridOk id ⟨"t", some 2, none, some 0, none⟩ ⟨none, none⟩ 2 1 0 (1/4) := by
  have h := calcRegions_error_iff id ⟨"t", some 2, none, some 0, none⟩ ⟨none, none⟩
    ⟨"t", some 2, none, some 0, none⟩ (by simp [jsTruthyQ])
  exact ⟨h.1, h.2 2 0 (1/4) rfl (by norm_num) rfl rfl (by simp [jsOrQ, jsTruthyQ]) rfl
    (Or.inr (Or.inr rfl))⟩

/-! ## Playback seek (`audioEvents.seek` and the legacy `seekEvent`) -/

/-- Evaluation of `Int.floor` on a rational at a concrete value. -/
theorem qfloor_eq (q : ℚ) (n : ℤ) (h1 : (n:ℚ) ≤ q) (h2 : q < n + 1) : ⌊q⌋ = n :=
  Int.floor_eq_iff.mpr ⟨h1, h2⟩

/-- Seek direction for previous/next beat navigation. -/
inductive SeekDirection
  | previous
  | next
deriving DecidableEq, Repr

/-- Index step contributed by the direction argument:
`direction ? (direction == 'next' ? 1 : -1) : 0`. -/
def directionStep : Option SeekDirection → ℤ
  | some .next => 1
  | some .previous => -1
  | none => 0

/-- `audioEvents.seek` of the audio-events client: resolves the target
marker from the current marker index `Math.floor(startTime / skipLength)`
stepped by the direction, and moves the playhead only when the marker
exists, is truthy, and differs from `startTime` by more than 5 ms
(`0.005 s`).  Returns the new playhead time, or `none` when no move is
performed.  `startTime = startTime || waveform.getCurrentTime()` uses JS
falsiness for the default. -/
def seek (markers : List ℚ) (skipLength : ℚ) (currentTime : ℚ)
    (startTime? : Option ℚ) (direction : Option SeekDirection) : Option ℚ :=
  let startTime := jsOrQ startTime? currentTime
  let currentMarkerIndex := ⌊startTime / skipLength⌋
  let newIndex := currentMarkerIndex + directionStep direction
  let time? := if 0 ≤ newIndex then markers.get? newIndex.toNat else none
  match time? with
  | none => none
  | some t =>
    if t ≠ 0 ∧ (t > startTime + 5/1000 ∨ t < startTime - 5/1000) then some t else none

/-- The legacy `seekEvent` of `audioEvents.ts`: identical to `seek`
except that the marker index is `Math.round(startTime / skipLength)`
and the missing-`time` default is destructuring (applied only when the
argument is `undefined`, not when it is `0`). -/
def seekEvent (markers : List ℚ) (skipLength : ℚ) (currentTime : ℚ)
    (startTime? : Option ℚ) (direction : Option SeekDirection) : Option ℚ :=
  let startTime := startTime?.getD currentTime
  let index := round (startTime / skipLength) + directionStep direction
  let time? := if 0 ≤ index then markers.get? index.toNat else none
  time?.bind fun t =>
    if t ≠ 0 ∧ (t > startTime + 5/1000 ∨ t < startTime - 5/1000) then some t else none

/-- The target-marker index as the claim words it ("current elapsed time
divided by skipLength rounded to the nearest integer, stepped by ±1"),
for comparison with the client seek handler. -/
def seekClaimIndex (skipLength startTime : ℚ) (direction : Option SeekDirection) : ℤ :=
  round (startTime / skipLength) + directionStep direction

/-- Counterexample to C3: on the marker grid `[0.2, 0.7, 1.2, 1.7]` with
skip length `0.5` and elapsed time `0.4`, the client seek handler moves
to marker index `⌊0.8⌋ = 0` (time `0.2`), while the claim's
round-to-nearest index is `1` (time `0.7`). -/
theorem seek_floor_ne_round :
    seek [1/5, 7/10, 6/5, 17/10] (1/2) 0 (some (2/5)) none = some (1/5) ∧
      seekClaimIndex (1/2) (2/5) none = 1 ∧
      [(1:ℚ)/5, 7/10, 6/5, 17/10].get? 1 = some (7/10) ∧
      ((1:ℚ)/5) ≠ 7/10 := by
  have hfloor : ⌊(2/5 : ℚ) / (1/2)⌋ = 0 := by
    apply qfloor_eq <;> norm_num
  have hround : round ((2/5 : ℚ) / (1/2)) = 1 := by
    rw [round_eq]
    apply qfloor_eq <;> norm_num
  refine ⟨?_, ?_, by norm_num, by norm_num⟩
  · simp only [seek, jsOrQ, jsTruthyQ, directionStep]
    norm_num [hfloor]
  · simp only [seekClaimIndex, directionStep, hround]
    norm_num

/-- Inversion of a performed client seek: the move goes to a marker of
the list, at the floor-based stepped index, and that marker is nonzero
and more than 5 ms from the start time. -/
theorem seek_moves_inv (markers : List ℚ) (skipLength currentTime : ℚ)
    (startTime? : Option ℚ) (direction : Option SeekDirection) (t : ℚ)
    (h : seek markers skipLength currentTime startTime? direction = some t) :
    t ≠ 0 ∧
      (t > jsOrQ startTime? currentTime + 5/1000 ∨
        t < jsOrQ startTime? currentTime - 5/1000) ∧
      ∃ i : ℕ, markers.get? i = some t ∧
        (i : ℤ) = ⌊jsOrQ startTime? currentTime / skipLength⌋ +
          directionStep direction := by
  simp only [seek] at h
  split at h
  next => exact absurd h (by simp)
  next u heq =>
    split at h
    next hc =>
      cases h
      by_cases h0 : 0 ≤ ⌊jsOrQ startTime? currentTime / skipLength⌋ +
          directionStep direction
      · rw [if_pos h0] at heq
        exact ⟨hc.1, hc.2, _, heq, Int.toNat_of_nonneg h0⟩
      · rw [if_neg h0] at heq
        cases heq
    next => exact absurd h (by simp)

/-- Inversion of a performed legacy seek (`seekEvent`): the move goes to
a marker of the list, at the round-based stepped index, and that marker
is nonzero and more than 5 ms from the start time. -/
theorem seekEvent_moves_inv (markers : List ℚ) (skipLength currentTime : ℚ)
    (startTime? : Option ℚ) (direction : Option SeekDirection) (t : ℚ)
    (h : seekEvent markers skipLength currentTime startTime? direction = some t) :
    t ≠ 0 ∧
      (t > startTime?.getD currentTime + 5/1000 ∨
        t < startTime?.getD currentTime - 5/1000) ∧
      ∃ i : ℕ, markers.get? i = some t ∧
        (i : ℤ) = round (startTime?.getD currentTime / skipLength) +
          directionStep direction := by
  rw [seekEvent] at h
  by_cases h0 : 0 ≤ round (startTime?.getD currentTime / skipLength) +
      directionStep direction
  · rw [if_pos h0] at h
    cases hget : markers.get? (round (startTime?.getD currentTime / skipLength) +
        directionStep direction).toNat with
    | none => rw [hget] at h; cases h
    | some u =>
      rw [hget, Option.some_bind] at h
      split at h
      next hc =>
        cases h
        exact ⟨hc.1, hc.2, _, hget, Int.toNat_of_nonneg h0⟩
      next => exact absurd h (by simp)
  · rw [if_neg h0] at h
    cases h

/-- On a beat-marker grid `z + k·skip` with `0 < z < skip`, a second
client seek starting from a marker the first seek just moved to
performs no move. -/
theorem seek_grid_idem (N : ℕ) (z skip ct ct' : ℚ) (st? : Option ℚ)
    (dir : Option SeekDirection) (t : ℚ)
    (hskip : 0 < skip) (hz0 : 0 < z) (hzskip : z < skip)
    (h : seek ((List.range N).map fun k : ℕ => z + k * skip) skip ct st? dir = some t) :
    seek ((List.range N).map fun k : ℕ => z + k * skip) skip ct' (some t) none = none := by
  obtain ⟨ht0, -, i, hget, -⟩ := seek_moves_inv _ _ _ _ _ _ h
  have hiN : i < N := by
    have := List.get?_eq_some.mp hget
    obtain ⟨hlt, -⟩ := this
    simpa using hlt
  have htval : t = z + i * skip := by
    rw [List.get?_map] at hget
    rw [List.get?_range hiN] at hget
    simpa using hget.symm
  have hst : jsOrQ (some t) ct' = t := by
    simp [jsOrQ, jsTruthyQ, ht0]
  have hdiv : t / skip = z / skip + (i : ℚ) := by
    rw [htval, add_div, mul_div_cancel_right₀ _ (ne_of_gt hskip)]
  have hfloor : ⌊t / skip⌋ = (i : ℤ) := by
    apply qfloor_eq
    · rw [hdiv]
      have : 0 < z / skip := div_pos hz0 hskip
      push_cast
      linarith
    · rw [hdiv]
      have : z / skip < 1 := (div_lt_one hskip).mpr hzskip
      push_cast
      linarith
  have hnn : (0:ℤ) ≤ (i:ℤ) := Int.natCast_nonneg i
  simp only [seek, hst, hfloor, directionStep, add_zero, if_pos hnn,
    Int.toNat_natCast, hget]
  rw [if_neg (by push_neg; exact fun _ => ⟨by linarith, by linarith⟩)]

/-- C3 (amended): the client seek handler resolves the target marker at
index `⌊startTime / skipLength⌋ ± 1` — not round-to-nearest, which only
the legacy `seekEvent` uses — and in both implementations every
performed move goes to a nonzero marker of the list more than 5 ms away
from the start time, so a resolved time within 5 ms is a no-op; on a
beat grid `z + k·skip` with `0 < z < skip`, a second seek from the
just-reached marker performs no second move. -/
theorem seek_index_and_five_ms_noop
    (markers : List ℚ) (skipLength currentTime : ℚ) (startTime? : Option ℚ)
    (direction : Option SeekDirection) (t : ℚ)
    (N : ℕ) (z skip ct ct' : ℚ)
    (hskip : 0 < skip) (hz0 : 0 < z) (hzskip : z < skip) :
    (seek markers skipLength currentTime startTime? direction = some t →
      t ∈ markers ∧ t ≠ 0 ∧
        (t > jsOrQ startTime? currentTime + 5/1000 ∨
          t < jsOrQ startTime? currentTime - 5/1000) ∧
        ∃ i : ℕ, markers.get? i = some t ∧
          (i : ℤ) = ⌊jsOrQ startTime? currentTime / skipLength⌋ +
            directionStep direction) ∧
    (seekEvent markers skipLength currentTime startTime? direction = some t →
      t ∈ markers ∧ t ≠ 0 ∧
        (t > startTime?.getD currentTime + 5/1000 ∨
          t < startTime?.getD currentTime - 5/1000) ∧
        ∃ i : ℕ, markers.get? i = some t ∧
          (i : ℤ) = round (startTime?.getD currentTime / skipLength) +
            directionStep direction) ∧
    (seek ((List.range N).map fun k : ℕ => z + k * skip) skip ct startTime? direction = some t →
      seek ((List.range N).map fun k : ℕ => z + k * skip) skip ct' (some t) none = none) := by
  refine ⟨?_, ?_, seek_grid_idem N z skip ct ct' startTime? direction t hskip hz0 hzskip⟩
  · intro h
    obtain ⟨h1, h2, i, hget, hi⟩ := seek_moves_inv _ _ _ _ _ _ h
    exact ⟨List.get?_mem hget, h1, h2, i, hget, hi⟩
  · intro h
    obtain ⟨h1, h2, i, hget, hi⟩ := seekEvent_moves_inv _ _ _ _ _ _ h
    exact ⟨List.get?_mem hget, h1, h2, i, hget, hi⟩

/-- Witness for C3 (amended): on the grid `[0.2, 0.7, 1.2, 1.7]` with
skip 0.5, seeking from 0.4 moves to 0.2, and a second seek from 0.2
performs no move. -/
theorem seek_index_and_five_ms_noop_witness :
    (0:ℚ) < 1/2 ∧
      seek ((List.range 4).map fun k : ℕ => 1/5 + k * (1/2)) (1/2) 0
        (some (2/5)) none = some (1/5) ∧
      seek ((List.range 4).map fun k : ℕ => 1/5 + k * (1/2)) (1/2) 0
        (some (1/5)) none = none := by
  have hgrid : ((List.range 4).map fun k : ℕ => (1:ℚ)/5 + k * (1/2)) =
      [1/5, 7/10, 6/5, 17/10] := by
    simp [List.range_succ]
    norm_num
  have hfloor : ⌊(2/5 : ℚ) / (1/2)⌋ = 0 := by
    apply qfloor_eq <;> norm_num
  have hmove : seek ((List.range 4).map fun k : ℕ => (1:ℚ)/5 + k * (1/2)) (1/2) 0
      (some (2/5)) none = some (1/5) := by
    rw [hgrid]
    simp only [seek, jsOrQ, jsTruthyQ, directionStep]
    norm_num [hfloor]
  exact ⟨by norm_num,
    hmove,
    (seek_index_and_five_ms_noop [] 1 0 (some (2/5)) none (1/5) 4 (1/5) (1/2) 0 0
      (by norm_num) (by norm_num) (by norm_num)).2.2 hmove⟩

/-! ## Track Audio State

The per-track ephemeral state container (`audioState` in `appState`),
with the fields the transport, mixer and stem-control handlers read and
write.  The type of gain values is a parameter `V`: the crossfade curve
needs real-valued gains (`Math.cos`), while the stem mute/solo logic is
exact.  Audio nodes (`gainNode`, a stem `player`) are present or absent;
a present gain node carries its current gain value. -/

/-- The four stems (`STEMS` in the db schema). -/
inductive Stem
  | drums
  | bass
  | vocals
  | other
deriving DecidableEq, Repr

/-- The list constant `STEMS = ['drums', 'bass', 'vocals', 'other']`. -/
def STEMS : List Stem := [.drums, .bass, .vocals, .other]

/-- Stem lifecycle phase (`StemState` in `appState.client`). -/
inductive StemState
  | selectStemDir
  | grantStemDirAccess
  | getStems
  | uploadingFile
  | processingStems
  | downloadingStems
  | ready
  | error
deriving DecidableEq, Repr

/-- A Tone.js `Player` as the transport observes it: its playback rate,
the `(startAt, offset)` of its last `start()` call and the scheduled
time of its last `stop()` call. -/
structure PlayerS where
  playbackRate : ℚ := 1
  started : Option (ℚ × Option ℚ) := none
  stopAt : Option ℚ := none
deriving DecidableEq, Repr

/-- Per-stem audio state (`Stems` entry in `appState`). -/
structure StemAS (V : Type) where
  player : Option PlayerS := none
  gainNode : Option V := none
  volume : Option V := none
  volumeMeter : Option ℚ := none
  mute : Option Bool := none
deriving DecidableEq, Repr

/-- Per-track audio state (`AudioState` entry in `appState`).  A `-1`
metering interval means none is stored (the value `pause` writes). -/
structure TrackAS (V : Type) where
  waveform : Bool := false
  playing : Bool := false
  time : Option ℚ := none
  player : Option PlayerS := none
  gainNode : Option V := none
  volumeMeter : Option ℚ := none
  volumeMeterInterval : ℤ := -1
  stems : Option (List (Stem × StemAS V)) := none
  stemState : Option StemState := none
deriving DecidableEq, Repr

/-- The `audioState` store: an association list from track id to its
track audio state, in insertion order. -/
abbrev AudioState (V : Type) := List (ℕ × TrackAS V)

/-- Reading `audioState[trackId]`. -/
def lookupTrack {V : Type} (id : ℕ) (st : AudioState V) : Option (TrackAS V) :=
  (st.find? fun p => p.1 == id).map (·.2)

/-- Pointwise update of the tracks satisfying a condition, as the
handlers' per-track writes do. -/
def mapTracks {V : Type} (c : ℕ → Prop) [DecidablePred c]
    (f : ℕ → TrackAS V → TrackAS V) (st : AudioState V) : AudioState V :=
  st.map fun p => if c p.1 then (p.1, f p.1 p.2) else p

theorem lookupTrack_mapTracks {V : Type} (c : ℕ → Prop) [DecidablePred c]
    (f : ℕ → TrackAS V → TrackAS V) (st : AudioState V) (id : ℕ) :
    lookupTrack id (mapTracks c f st) =
      if c id then (lookupTrack id st).map (f id) else lookupTrack id st := by
  induction st with
  | nil => simp [lookupTrack, mapTracks]
  | cons p rest ih =>
    obtain ⟨pid, tr⟩ := p
    by_cases hid : pid = id
    · subst hid
      by_cases hc : c pid
      · simp [lookupTrack, mapTracks, List.find?, hc]
      · simp [lookupTrack, mapTracks, List.find?, hc]
    · have hbeq : (pid == id) = false := by simp [hid]
      by_cases hc : c pid
      · simpa [lookupTrack, mapTracks, List.find?, hc, hbeq] using ih
      · simpa [lookupTrack, mapTracks, List.find?, hc, hbeq] using ih

/-- A successful state lookup comes from an entry of the list. -/
theorem lookupTrack_mem {V : Type} {id : ℕ} {tr : TrackAS V} {st : AudioState V}
    (h : lookupTrack id st = some tr) : (id, tr) ∈ st := by
  rw [lookupTrack] at h
  obtain ⟨p, hfind, hp2⟩ := Option.map_eq_some'.mp h
  have hm := List.mem_of_find?_eq_some hfind
  have hbeq := List.find?_some hfind
  have h1 : p.1 = id := by simpa using hbeq
  have : p = (id, tr) := by
    obtain ⟨a, b⟩ := p
    simp only at h1 hp2
    rw [h1, hp2]
  rwa [this] at hm

/-! ## Crossfade Mixer (`audioEvents.crossfade` / `audioEvents.updateVolume`) -/

/-- The per-track body of `audioEvents.updateVolume`: with no stems the
track's single gain node (when present) is set to `volume`; with stems
every stem's gain node (when present) is set, unless a `stemType`
filter restricts the update to that one stem
(`if (stemType && stem != stemType) continue`). -/
def applyTrackVolume {V : Type} [DecidableEq V] (volume : V) (stemType : Option Stem)
    (tr : TrackAS V) : TrackAS V :=
  match tr.stems with
  | none => { tr with gainNode := tr.gainNode.map fun _ => volume }
  | some stems =>
    { tr with stems := some (stems.map fun p =>
        if stemType = none ∨ some p.1 = stemType then
          (p.1, { p.2 with gainNode := p.2.gainNode.map fun _ => volume })
        else p) }

/-- `audioEvents.updateVolume(trackId, volume, stemType?)`. -/
def updateVolume {V : Type} [DecidableEq V] (trackId : ℕ) (volume : V)
    (stemType : Option Stem) (st : AudioState V) : AudioState V :=
  mapTracks (· = trackId) (fun _ => applyTrackVolume volume stemType) st

/-- The constant-power crossfade pair of `audioEvents.crossfade`:
`[min(1, 1 + cos(p·π)), min(1, 1 + cos((1−p)·π))]` with `p = v/100`. -/
noncomputable def crossfadeVolumes (sliderVal : ℝ) : ℝ × ℝ :=
  let sliderPercent := sliderVal / 100
  (min 1 (1 + Real.cos (sliderPercent * Real.pi)),
    min 1 (1 + Real.cos ((1 - sliderPercent) * Real.pi)))

/-- `audioEvents.crossfade(sliderVal, stemType?)` over the two mix
slots: each occupied slot's track receives the corresponding member of
the crossfade pair via `updateVolume`. -/
noncomputable def crossfade (sliderVal : ℝ) (stemType : Option Stem)
    (slotA slotB : Option ℕ) (st : AudioState ℝ) : AudioState ℝ :=
  let volumes := crossfadeVolumes sliderVal
  let st1 := match slotA with
    | none => st
    | some a => updateVolume a volumes.1 stemType st
  match slotB with
  | none => st1
  | some b => updateVolume b volumes.2 stemType st1

theorem crossfadeVolumes_zero : crossfadeVolumes 0 = (1, 0) := by
  have h1 : (0:ℝ) / 100 * Real.pi = 0 := by norm_num
  have h2 : (1 - (0:ℝ) / 100) * Real.pi = Real.pi := by norm_num
  simp only [crossfadeVolumes, h1, h2, Real.cos_zero, Real.cos_pi, Prod.mk.injEq]
  norm_num

theorem crossfadeVolumes_fifty : crossfadeVolumes 50 = (1, 1) := by
  have h1 : (50:ℝ) / 100 * Real.pi = Real.pi / 2 := by ring
  have h2 : (1 - (50:ℝ) / 100) * Real.pi = Real.pi / 2 := by ring
  simp only [crossfadeVolumes, h1, h2, Real.cos_pi_div_two, Prod.mk.injEq]
  norm_num

theorem crossfadeVolumes_hundred : crossfadeVolumes 100 = (0, 1) := by
  have h1 : (100:ℝ) / 100 * Real.pi = Real.pi := by ring
  have h2 : (1 - (100:ℝ) / 100) * Real.pi = 0 := by ring
  simp only [crossfadeVolumes, h1, h2, Real.cos_zero, Real.cos_pi, Prod.mk.injEq]
  norm_num

/-- C4: the crossfade pair is `(min(1, 1+cos(p·π)), min(1, 1+cos((1−p)·π)))`
with `p = v/100`, giving `(1, 0)` at `v = 0`, `(1, 1)` at `v = 50` and
`(0, 1)` at `v = 100`; slot A's track receives the first gain and slot
B's the second, other tracks are untouched, and a track's update goes
to its single gain control when it has no stems and to every stem's
gain control (unless a stem filter restricts it to that one stem) when
it does. -/
theorem crossfade_constant_power (v : ℝ) (f : Option Stem) (a b : ℕ)
    (st : AudioState ℝ) (hab : a ≠ b) :
    crossfadeVolumes v =
      (min 1 (1 + Real.cos (v / 100 * Real.pi)),
        min 1 (1 + Real.cos ((1 - v / 100) * Real.pi))) ∧
    crossfadeVolumes 0 = (1, 0) ∧
    crossfadeVolumes 50 = (1, 1) ∧
    crossfadeVolumes 100 = (0, 1) ∧
    lookupTrack a (crossfade v f (some a) (some b) st) =
      (lookupTrack a st).map (applyTrackVolume (crossfadeVolumes v).1 f) ∧
    lookupTrack b (crossfade v f (some a) (some b) st) =
      (lookupTrack b st).map (applyTrackVolume (crossfadeVolumes v).2 f) ∧
    (∀ c : ℕ, c ≠ a → c ≠ b →
      lookupTrack c (crossfade v f (some a) (some b) st) = lookupTrack c st) ∧
    (∀ (tr : TrackAS ℝ) (g : ℝ),
      (tr.stems = none →
        applyTrackVolume g f tr = { tr with gainNode := tr.gainNode.map fun _ => g }) ∧
      ∀ l, tr.stems = some l →
        applyTrackVolume g f tr = { tr with stems := some (l.map fun p =>
          if f = none ∨ some p.1 = f then
            (p.1, { p.2 with gainNode := p.2.gainNode.map fun _ => g })
          else p) }) := by
  have hcf : crossfade v f (some a) (some b) st =
      updateVolume b (crossfadeVolumes v).2 f
        (updateVolume a (crossfadeVolumes v).1 f st) := rfl
  refine ⟨rfl, crossfadeVolumes_zero, crossfadeVolumes_fifty, crossfadeVolumes_hundred,
    ?_, ?_, ?_, ?_⟩
  · rw [hcf, updateVolume, updateVolume, lookupTrack_mapTracks, lookupTrack_mapTracks]
    simp [hab]
  · rw [hcf, updateVolume, updateVolume, lookupTrack_mapTracks, lookupTrack_mapTracks]
    simp [Ne.symm hab]
  · intro c hca hcb
    rw [hcf, updateVolume, updateVolume, lookupTrack_mapTracks, lookupTrack_mapTracks]
    simp [hca, hcb]
  · intro tr g
    constructor
    · intro hnone
      rw [applyTrackVolume, hnone]
    · intro l hsome
      rw [applyTrackVolume, hsome]

/-- Witness for C4 at slider value 0 with two occupied slots. -/
theorem crossfade_constant_power_witness :
    (1:ℕ) ≠ 2 ∧ crossfadeVolumes 0 = (1, 0) :=
  ⟨by decide, (crossfade_constant_power 0 none 1 2 [] (by decide)).2.1⟩

/-! ## Stem mute / solo (`audioEvents.stemMuteToggle` / `audioEvents.stemSoloToggle`) -/

/-- JS `volume || 1` on a possibly-undefined gain value: `undefined`
and `0` both fall back to the default. -/
def jsOrV {V : Type} [DecidableEq V] [Zero V] (a : Option V) (b : V) : V :=
  match a with
  | none => b
  | some x => if x = 0 then b else x

/-- The write `stemMuteToggle` performs on the addressed stem entry:
the gain node (when present) is set to `mute ? 0 : volume || 1` and the
mute flag to `mute`. -/
def muteStemUpdate {V : Type} [DecidableEq V] [Zero V] [One V] (mute : Bool)
    (p : Stem × StemAS V) : Stem × StemAS V :=
  (p.1, { p.2 with
    gainNode := p.2.gainNode.map fun _ => if mute then 0 else jsOrV p.2.volume 1,
    mute := some mute })

/-- First component of the mute update is the stem key itself. -/
@[simp] theorem muteStemUpdate_fst {V : Type} [DecidableEq V] [Zero V] [One V]
    (mute : Bool) (p : Stem × StemAS V) : (muteStemUpdate mute p).1 = p.1 := rfl

/-- The per-track body of `audioEvents.stemMuteToggle`: a no-op when the
track has no stems (`if (!stems) return`), otherwise the addressed stem
entry is updated. -/
def muteTrackStem {V : Type} [DecidableEq V] [Zero V] [One V] (stemType : Stem)
    (mute : Bool) (tr : TrackAS V) : TrackAS V :=
  { tr with stems := tr.stems.map fun stems => stems.map fun p =>
      if p.1 = stemType then muteStemUpdate mute p else p }

/-- `audioEvents.stemMuteToggle(trackId, stemType, mute)`. -/
def stemMuteToggle {V : Type} [DecidableEq V] [Zero V] [One V] (trackId : ℕ)
    (stemType : Stem) (mute : Bool) (st : AudioState V) : AudioState V :=
  mapTracks (· = trackId) (fun _ => muteTrackStem stemType mute) st

/-- `audioEvents.stemSoloToggle(trackId, stem, solo)`: for each present
stem key other than `stem`, toggle its mute state to `solo`. -/
def stemSoloToggle {V : Type} [DecidableEq V] [Zero V] [One V] (trackId : ℕ)
    (stem : Stem) (solo : Bool) (st : AudioState V) : AudioState V :=
  match (lookupTrack trackId st).bind (·.stems) with
  | none => st
  | some stems =>
    (stems.map Prod.fst).foldl
      (fun acc s => if s ≠ stem then stemMuteToggle trackId s solo acc else acc) st

theorem stemMuteToggle_lookup {V : Type} [DecidableEq V] [Zero V] [One V]
    (tid : ℕ) (k : Stem) (mute : Bool) (st : AudioState V) (tr : TrackAS V)
    (l : List (Stem × StemAS V))
    (hlk : lookupTrack tid st = some tr) (hstems : tr.stems = some l) :
    lookupTrack tid (stemMuteToggle tid k mute st) =
      some { tr with stems := some (l.map fun p =>
        if p.1 = k then muteStemUpdate mute p else p) } ∧
    ∀ c : ℕ, c ≠ tid → lookupTrack c (stemMuteToggle tid k mute st) = lookupTrack c st := by
  constructor
  · rw [stemMuteToggle, lookupTrack_mapTracks, if_pos rfl, hlk, Option.map_some']
    rw [muteTrackStem, hstems, Option.map_some']
  · intro c hc
    rw [stemMuteToggle, lookupTrack_mapTracks, if_neg hc]

/-- The solo fold over a duplicate-free list of stem keys updates every
listed key other than the soloed stem, pointwise. -/
theorem soloFold_lookup {V : Type} [DecidableEq V] [Zero V] [One V]
    (tid : ℕ) (stem : Stem) (solo : Bool) :
    ∀ (ks : List Stem), ks.Nodup →
      ∀ (st : AudioState V) (tr : TrackAS V) (l : List (Stem × StemAS V)),
        lookupTrack tid st = some tr → tr.stems = some l →
        lookupTrack tid (ks.foldl
            (fun acc s => if s ≠ stem then stemMuteToggle tid s solo acc else acc) st) =
          some { tr with stems := some (l.map fun p =>
            if p.1 ∈ ks ∧ p.1 ≠ stem then muteStemUpdate solo p else p) } ∧
        ∀ c : ℕ, c ≠ tid →
          lookupTrack c (ks.foldl
            (fun acc s => if s ≠ stem then stemMuteToggle tid s solo acc else acc) st) =
            lookupTrack c st := by
  intro ks
  induction ks with
  | nil =>
    intro _ st tr l hlk hstems
    refine ⟨?_, fun c _ => rfl⟩
    simp only [List.foldl_nil]
    rw [hlk]
    have hmap : (l.map fun p => if p.1 ∈ ([] : List Stem) ∧ p.1 ≠ stem
        then muteStemUpdate solo p else p) = l := by
      simp
    rw [hmap, ← hstems]
  | cons k ks ih =>
    intro hnd st tr l hlk hstems
    have hknotin : k ∉ ks := (List.nodup_cons.mp hnd).1
    have hndks : ks.Nodup := (List.nodup_cons.mp hnd).2
    by_cases hk : k ≠ stem
    · obtain ⟨hlk1, hother1⟩ := stemMuteToggle_lookup tid k solo st tr l hlk hstems
      have hstep : (List.foldl
          (fun acc s => if s ≠ stem then stemMuteToggle tid s solo acc else acc) st (k :: ks)) =
          List.foldl (fun acc s => if s ≠ stem then stemMuteToggle tid s solo acc else acc)
            (stemMuteToggle tid k solo st) ks := by
        rw [List.foldl_cons, if_pos hk]
      obtain ⟨hlk2, hother2⟩ := ih hndks (stemMuteToggle tid k solo st) _ _ hlk1 rfl
      rw [hstep]
      refine ⟨?_, fun c hc => (hother2 c hc).trans (hother1 c hc)⟩
      rw [hlk2]
      have hmap : ((l.map fun p => if p.1 = k then muteStemUpdate solo p else p).map
          fun p => if p.1 ∈ ks ∧ p.1 ≠ stem then muteStemUpdate solo p else p) =
          l.map fun p => if p.1 ∈ (k :: ks) ∧ p.1 ≠ stem then muteStemUpdate solo p else p := by
        rw [List.map_map]
        apply List.map_congr_left
        intro p _
        dsimp only [Function.comp_apply]
        by_cases hpk : p.1 = k
        · rw [if_pos hpk]
          simp only [muteStemUpdate_fst]
          rw [if_neg (fun hx => hknotin (hpk ▸ hx.1)),
            if_pos ⟨by rw [hpk]; exact List.mem_cons_self k ks, fun hx => hk (hpk ▸ hx)⟩]
        · rw [if_neg hpk]
          by_cases hp : p.1 ∈ ks ∧ p.1 ≠ stem
          · rw [if_pos hp, if_pos ⟨List.mem_cons_of_mem _ hp.1, hp.2⟩]
          · rw [if_neg hp, if_neg ?_]
            rintro ⟨hmem, hne⟩
            rcases List.mem_cons.mp hmem with h | h
            · exact hpk h
            · exact hp ⟨h, hne⟩
      rw [hmap]
    · push_neg at hk
      subst hk
      have hstep : (List.foldl
          (fun acc s => if s ≠ k then stemMuteToggle tid s solo acc else acc) st (k :: ks)) =
          List.foldl (fun acc s => if s ≠ k then stemMuteToggle tid s solo acc else acc)
            st ks := by
        rw [List.foldl_cons, if_neg (by simp)]
      obtain ⟨hlk2, hother2⟩ := ih hndks st tr l hlk hstems
      rw [hstep]
      refine ⟨?_, hother2⟩
      rw [hlk2]
      have hmap : (l.map fun p => if p.1 ∈ ks ∧ p.1 ≠ k then muteStemUpdate solo p else p) =
          l.map fun p => if p.1 ∈ (k :: ks) ∧ p.1 ≠ k then muteStemUpdate solo p else p := by
        apply List.map_congr_left
        intro p _
        by_cases hp : p.1 ∈ ks ∧ p.1 ≠ k
        · rw [if_pos hp, if_pos ⟨List.mem_cons_of_mem _ hp.1, hp.2⟩]
        · rw [if_neg hp, if_neg ?_]
          rintro ⟨hmem, hne⟩
          rcases List.mem_cons.mp hmem with h | h
          · exact hne h
          · exact hp ⟨h, hne⟩
      rw [hmap]

/-- Counterexample to C10: with a stem whose *stored volume is 0*,
un-soloing restores that stem's gain to `1`, not to its stored volume,
because the restore is `volume || 1` and `0` is falsy.  Here drums has
volume 0 and gain 5; after `stemSoloToggle(1, bass, false)` its gain is
1 rather than the stored 0. -/
theorem stemSoloToggle_zero_volume_restores_one :
    (lookupTrack 1 (stemSoloToggle (V := ℚ) 1 .bass false
        [(1, { waveform := true, stems := some [
            (.drums, { gainNode := some 5, volume := some 0, mute := some true }),
            (.bass, { gainNode := some 2, volume := some 3, mute := some false })] })])).bind
      (·.stems) =
      some [(.drums, { gainNode := some 1, volume := some 0, mute := some false }),
            (.bass, { gainNode := some 2, volume := some 3, mute := some false })] ∧
    some (1:ℚ) ≠ some (0:ℚ) := by
  constructor
  · rfl
  · simp

/-- C10 (amended): on a track with stems (duplicate-free keys),
`stemSoloToggle(trackId, s, solo)` leaves the entry of `s` unchanged
and applies the mute update to every other stem: with `solo = true`
each other stem's present gain node is set to 0 and its mute flag set;
with `solo = false` each other stem is unmuted, its gain restored to
its stored volume when that is nonzero, and to 1 when the volume is
absent or 0.  Other tracks are untouched. -/
theorem stemSoloToggle_spec {V : Type} [DecidableEq V] [Zero V] [One V]
    (tid : ℕ) (stem : Stem) (solo : Bool) (st : AudioState V)
    (tr : TrackAS V) (l : List (Stem × StemAS V))
    (hlk : lookupTrack tid st = some tr) (hstems : tr.stems = some l)
    (hnd : (l.map Prod.fst).Nodup) :
    lookupTrack tid (stemSoloToggle tid stem solo st) =
      some { tr with stems := some (l.map fun p =>
        if p.1 = stem then p else muteStemUpdate solo p) } ∧
    (∀ c : ℕ, c ≠ tid →
      lookupTrack c (stemSoloToggle tid stem solo st) = lookupTrack c st) ∧
    (∀ p : Stem × StemAS V, muteStemUpdate true p =
      (p.1, { p.2 with gainNode := p.2.gainNode.map fun _ => 0, mute := some true })) ∧
    (∀ p : Stem × StemAS V, muteStemUpdate false p =
      (p.1, { p.2 with gainNode := p.2.gainNode.map (fun _ => jsOrV p.2.volume 1),
                       mute := some false })) := by
  have hunfold : stemSoloToggle tid stem solo st =
      (l.map Prod.fst).foldl
        (fun acc s => if s ≠ stem then stemMuteToggle tid s solo acc else acc) st := by
    rw [stemSoloToggle, hlk, Option.some_bind, hstems]
  obtain ⟨h1, h2⟩ := soloFold_lookup tid stem solo (l.map Prod.fst) hnd st tr l hlk hstems
  refine ⟨?_, fun c hc => by rw [hunfold]; exact h2 c hc, fun p => rfl, fun p => rfl⟩
  rw [hunfold, h1]
  congr 3
  apply List.map_congr_left
  intro p hp
  by_cases hps : p.1 = stem
  · rw [if_neg (fun hx => hx.2 hps), if_pos hps]
  · rw [if_pos ⟨List.mem_map_of_mem Prod.fst hp, hps⟩, if_neg hps]

/-- Witness for C10 on a two-stem track: soloing bass mutes drums. -/
theorem stemSoloToggle_spec_witness :
    lookupTrack 1 (stemSoloToggle (V := ℚ) 1 .bass true
        [(1, { waveform := true, stems := some [
            (.drums, { gainNode := some 5, volume := some 3, mute := some false }),
            (.bass, { gainNode := some 2, volume := some 3, mute := some false })] })]) =
      some { waveform := true, stems := some (List.map (fun p =>
          if p.1 = Stem.bass then p else muteStemUpdate true p) [
            (.drums, { gainNode := some 5, volume := some 3, mute := some false }),
            (.bass, { gainNode := some 2, volume := some 3, mute := some false })]) } := by
  have h := (stemSoloToggle_spec (V := ℚ) 1 .bass true
    [(1, { waveform := true, stems := some [
        (.drums, { gainNode := some 5, volume := some 3, mute := some false }),
        (.bass, { gainNode := some 2, volume := some 3, mute := some false })] })]
    { waveform := true, stems := some [
        (.drums, { gainNode := some 5, volume := some 3, mute := some false }),
        (.bass, { gainNode := some 2, volume := some 3, mute := some false })] }
    [(.drums, { gainNode := some 5, volume := some 3, mute := some false }),
     (.bass, { gainNode := some 2, volume := some 3, mute := some false })]
    rfl rfl (by simp)).1
  exact h

/-! ## Playback Transport: `audioEvents.pause` -/

/-- The browser's interval-timer registry: the set of live interval
handles and the next fresh handle.  `setInterval` returns a fresh live
handle, `clearInterval` kills one. -/
structure Timers where
  live : List ℤ := []
  next : ℤ := 1
deriving DecidableEq, Repr

/-- `setInterval(...)`: returns a fresh handle, now live. -/
def setIntervalT (T : Timers) : ℤ × Timers :=
  (T.next, { live := T.next :: T.live, next := T.next + 1 })

/-- `clearInterval(h)`: the handle is no longer live. -/
def clearIntervalT (h : ℤ) (T : Timers) : Timers :=
  { T with live := T.live.filter (· ≠ h) }

theorem clearIntervalT_subset (h : ℤ) (T : Timers) :
    (clearIntervalT h T).live ⊆ T.live := by
  intro x hx
  exact (List.mem_filter.mp hx).1

theorem not_mem_clearIntervalT (h : ℤ) (T : Timers) :
    h ∉ (clearIntervalT h T).live := by
  intro hx
  have := (List.mem_filter.mp hx).2
  simp at this

/-- A `player.stop(t)` call observed by the transport. -/
structure StopEv where
  track : ℕ
  stem : Option Stem
  stopAt : ℚ
deriving DecidableEq, Repr

/-- The write of the first `pause` loop on a track: its player (when
present) is stopped at `stopAt`. -/
def stopTrackPlayer {V : Type} (stopAt : ℚ) (tr : TrackAS V) : TrackAS V :=
  { tr with player := tr.player.map fun pl => { pl with stopAt := some stopAt } }

/-- The per-track body of the second `pause` loop: every stem meter is
zeroed and every stem player stopped at `stopAt`; the track meter is
zeroed, the stored metering interval handle reset to `-1` and the
playing flag cleared. -/
def pauseTrack {V : Type} (stopAt : ℚ) (tr : TrackAS V) : TrackAS V :=
  { tr with
    stems := tr.stems.map fun stems => stems.map fun p =>
      (p.1, { p.2 with
                volumeMeter := some 0,
                player := p.2.player.map fun pl => { pl with stopAt := some stopAt } }),
    volumeMeter := some 0,
    volumeMeterInterval := -1,
    playing := false }

/-- The stem `player.stop` events the second `pause` loop emits for one
track. -/
def pauseTrackStemStops {V : Type} (stopAt : ℚ) (id : ℕ) (tr : TrackAS V) : List StopEv :=
  (tr.stems.map fun stems =>
    stems.filterMap fun p => p.2.player.map fun _ => (⟨id, some p.1, stopAt⟩ : StopEv)).getD []

/-- The track ids `pause` iterates over: the given one, or every loaded
track id when omitted. -/
def pauseTargets {V : Type} (trackId? : Option ℕ) (st : AudioState V) : List ℕ :=
  match trackId? with
  | some tid => [tid]
  | none => st.map (·.1)

/-- `audioEvents.pause(trackId?)`: stops the selected track-level
player(s) at `now + 0.1` (a ~100 ms release), then for each selected
track zeroes all stem meters, stops stem players at the same release,
clears the metering timer, zeroes the track meter, resets the stored
interval to `-1` and clears the playing flag.  Omitting `trackId`
pauses every loaded track. -/
def pause {V : Type} (trackId? : Option ℕ) (st : AudioState V) (T : Timers)
    (nowT : ℚ) : AudioState V × Timers × List StopEv :=
  let stopAt := nowT + 1/10
  let trackStops : List StopEv := match trackId? with
    | some tid => ((lookupTrack tid st).bind (·.player)).toList.map fun _ => ⟨tid, none, stopAt⟩
    | none => st.filterMap fun p => p.2.player.map fun _ => ⟨p.1, none, stopAt⟩
  let st1 := mapTracks (fun id => trackId? = none ∨ trackId? = some id)
    (fun _ => stopTrackPlayer stopAt) st
  let st2 := mapTracks (fun id => id ∈ pauseTargets trackId? st)
    (fun _ => pauseTrack stopAt) st1
  let stemStops := (pauseTargets trackId? st).foldr
    (fun id acc => (match lookupTrack id st1 with
      | some tr => pauseTrackStemStops stopAt id tr
      | none => []) ++ acc) []
  let T' := (pauseTargets trackId? st).foldl
    (fun acc id => match lookupTrack id st1 with
      | some tr => clearIntervalT tr.volumeMeterInterval acc
      | none => acc) T
  (st2, T', trackStops ++ stemStops)

theorem pauseTrackStemStops_stopAt {V : Type} (stopAt : ℚ) (id : ℕ)
    (tr : TrackAS V) : ∀ e ∈ pauseTrackStemStops stopAt id tr, e.stopAt = stopAt := by
  intro e he
  rw [pauseTrackStemStops] at he
  cases hs : tr.stems with
  | none => rw [hs] at he; simp at he
  | some stems =>
    rw [hs] at he
    simp only [Option.map_some', Option.getD_some] at he
    obtain ⟨p, -, hmap⟩ := List.mem_filterMap.mp he
    obtain ⟨pl, -, hev⟩ := Option.map_eq_some'.mp hmap
    rw [← hev]

/-- The timer fold of `pause` kills the interval handle stored for
every listed track and never revives a handle. -/
theorem foldClear_kills {V : Type} (st1 : AudioState V) :
    ∀ (ids : List ℕ) (T : Timers),
      (∀ id ∈ ids, ∀ tr : TrackAS V, lookupTrack id st1 = some tr →
        tr.volumeMeterInterval ∉ (ids.foldl (fun acc i => match lookupTrack i st1 with
          | some tr => clearIntervalT tr.volumeMeterInterval acc
          | none => acc) T).live) ∧
      (ids.foldl (fun acc i => match lookupTrack i st1 with
        | some tr => clearIntervalT tr.volumeMeterInterval acc
        | none => acc) T).live ⊆ T.live := by
  intro ids
  induction ids with
  | nil => exact fun T => ⟨fun id h => absurd h (List.not_mem_nil id), fun x hx => hx⟩
  | cons i ids ih =>
    intro T
    constructor
    · intro id hid tr htr
      rcases List.mem_cons.mp hid with rfl | hmem
      · rw [List.foldl_cons, htr]
        intro hx
        exact not_mem_clearIntervalT tr.volumeMeterInterval T
          ((ih (clearIntervalT tr.volumeMeterInterval T)).2 hx)
      · rw [List.foldl_cons]
        cases hl : lookupTrack i st1 with
        | none => exact (ih T).1 id hmem tr htr
        | some tr0 => exact (ih (clearIntervalT tr0.volumeMeterInterval T)).1 id hmem tr htr
    · rw [List.foldl_cons]
      cases hl : lookupTrack i st1 with
      | none => exact (ih T).2
      | some tr0 =>
        exact fun x hx => clearIntervalT_subset _ T
          ((ih (clearIntervalT tr0.volumeMeterInterval T)).2 hx)

/-- The stem-stop fold of `pause` contains every listed track's stem
stop events, and all of its events carry the given stop time. -/
theorem foldStems_spec {V : Type} (st1 : AudioState V) (stopAt : ℚ) :
    ∀ ids : List ℕ,
      (∀ id ∈ ids, ∀ tr : TrackAS V, lookupTrack id st1 = some tr →
        ∀ e ∈ pauseTrackStemStops stopAt id tr,
          e ∈ ids.foldr (fun i acc => (match lookupTrack i st1 with
            | some tr => pauseTrackStemStops stopAt i tr
            | none => []) ++ acc) []) ∧
      (∀ e ∈ ids.foldr (fun i acc => (match lookupTrack i st1 with
          | some tr => pauseTrackStemStops stopAt i tr
          | none => []) ++ acc) [], e.stopAt = stopAt) := by
  intro ids
  induction ids with
  | nil => exact ⟨fun id h => absurd h (List.not_mem_nil id), fun e he => absurd he (List.not_mem_nil e)⟩
  | cons i ids ih =>
    constructor
    · intro id hid tr htr e he
      rw [List.foldr_cons]
      rcases List.mem_cons.mp hid with rfl | hmem
      · rw [htr]
        exact List.mem_append_left _ he
      · exact List.mem_append_right _ (ih.1 id hmem tr htr e he)
    · intro e he
      rw [List.foldr_cons] at he
      rcases List.mem_append.mp he with h | h
      · split at h
        next tr0 _ => exact pauseTrackStemStops_stopAt stopAt i tr0 e h
        next => cases h
      · exact ih.2 e h

/-- C6: after `pause(trackId?)` the meter of every affected track and
of each of its stems is 0, its stored metering interval is `-1` and the
cleared handle is no longer live, its playing flag is false, every
affected player — track-level and stem — is stopped at `now + 0.1`
(a ~100 ms release, not immediately), and every such player has a stop
event; omitting `trackId` selects every loaded track. -/
theorem pause_zeroes_meters {V : Type} (trackId? : Option ℕ) (st : AudioState V)
    (T : Timers) (nowT : ℚ) (st2 : AudioState V) (T' : Timers) (evs : List StopEv)
    (hst2 : st2 = (pause trackId? st T nowT).1)
    (hT' : T' = (pause trackId? st T nowT).2.1)
    (hevs : evs = (pause trackId? st T nowT).2.2) :
    (∀ e ∈ evs, e.stopAt = nowT + 1/10) ∧
    (∀ id ∈ pauseTargets trackId? st, ∀ tr' : TrackAS V,
      lookupTrack id st2 = some tr' →
        tr'.volumeMeter = some 0 ∧ tr'.volumeMeterInterval = -1 ∧ tr'.playing = false ∧
        ∀ l, tr'.stems = some l → ∀ p ∈ l, p.2.volumeMeter = some 0) ∧
    (∀ id ∈ pauseTargets trackId? st, ∀ tr : TrackAS V, lookupTrack id st = some tr →
      tr.volumeMeterInterval ∉ T'.live) ∧
    (trackId? = none → pauseTargets trackId? st = st.map (·.1)) ∧
    (∀ id ∈ pauseTargets trackId? st, ∀ tr : TrackAS V, lookupTrack id st = some tr →
      (tr.player.isSome → (⟨id, none, nowT + 1/10⟩ : StopEv) ∈ evs) ∧
      ∀ l, tr.stems = some l → ∀ p ∈ l, p.2.player.isSome →
        (⟨id, some p.1, nowT + 1/10⟩ : StopEv) ∈ evs) := by
  subst hst2 hT' hevs
  simp only [pause]
  set stopAt : ℚ := nowT + 1/10 with hstop
  set st1 : AudioState V := mapTracks (fun id => trackId? = none ∨ trackId? = some id)
    (fun _ => stopTrackPlayer stopAt) st with hst1
  have hlk1 : ∀ id (tr : TrackAS V), lookupTrack id st = some tr →
      ∃ tr1 : TrackAS V, lookupTrack id st1 = some tr1 ∧
        tr1.volumeMeterInterval = tr.volumeMeterInterval ∧
        tr1.stems = tr.stems := by
    intro id tr htr
    rw [hst1, lookupTrack_mapTracks]
    by_cases hc : trackId? = none ∨ trackId? = some id
    · exact ⟨stopTrackPlayer stopAt tr, by rw [if_pos hc, htr]; rfl, rfl, rfl⟩
    · exact ⟨tr, by rw [if_neg hc, htr], rfl, rfl⟩
  refine ⟨?_, ?_, ?_, fun h => by rw [h]; rfl, ?_⟩
  · -- every stop event carries the ~100 ms release time
    intro e he
    rcases List.mem_append.mp he with h | h
    · rcases htid : trackId? with _ | tid
      · rw [htid] at h
        obtain ⟨p, -, hmap⟩ := List.mem_filterMap.mp h
        obtain ⟨pl, -, hev⟩ := Option.map_eq_some'.mp hmap
        rw [← hev]
      · rw [htid] at h
        obtain ⟨pl, -, hev⟩ := List.mem_map.mp h
        rw [← hev]
    · exact (foldStems_spec st1 stopAt (pauseTargets trackId? st)).2 e h
  · -- meters zeroed, interval reset, playing cleared
    intro id hid tr' htr'
    rw [lookupTrack_mapTracks, if_pos hid] at htr'
    obtain ⟨tr1, -, htr1⟩ := Option.map_eq_some'.mp htr'
    subst htr1
    refine ⟨rfl, rfl, rfl, ?_⟩
    intro l hl p hp
    rw [show (pauseTrack stopAt tr1).stems = tr1.stems.map (fun stems => stems.map fun p =>
        (p.1, { p.2 with
                  volumeMeter := some 0,
                  player := p.2.player.map fun pl => { pl with stopAt := some stopAt } }))
      from rfl] at hl
    obtain ⟨stems1, -, hmapl⟩ := Option.map_eq_some'.mp hl
    subst hmapl
    obtain ⟨q, -, hq⟩ := List.mem_map.mp hp
    rw [← hq]
  · -- the cleared metering handle is no longer live
    intro id hid tr htr
    obtain ⟨tr1, hlk, hint, -⟩ := hlk1 id tr htr
    rw [← hint]
    exact (foldClear_kills st1 (pauseTargets trackId? st) T).1 id hid tr1 hlk
  · -- every affected player has a stop event at the release time
    intro id hid tr htr
    constructor
    · intro hplayer
      rcases htid : trackId? with _ | tid
      · dsimp only
        refine List.mem_append_left _ (List.mem_filterMap.mpr ⟨(id, tr), lookupTrack_mem htr, ?_⟩)
        obtain ⟨pl, hpl⟩ := Option.isSome_iff_exists.mp hplayer
        rw [hpl]
        rfl
      · rw [htid] at hid
        have hidt : id = tid := by simpa [pauseTargets] using hid
        subst hidt
        dsimp only
        refine List.mem_append_left _ ?_
        rw [htr, Option.some_bind]
        obtain ⟨pl, hpl⟩ := Option.isSome_iff_exists.mp hplayer
        rw [hpl]
        exact List.mem_singleton.mpr rfl
    · intro l hl p hp hpl
      obtain ⟨tr1, hlk, -, hstems⟩ := hlk1 id tr htr
      refine List.mem_append_right _
        ((foldStems_spec st1 stopAt (pauseTargets trackId? st)).1 id hid tr1 hlk _ ?_)
      rw [pauseTrackStemStops, hstems, hl]
      simp only [Option.map_some', Option.getD_some]
      refine List.mem_filterMap.mpr ⟨p, hp, ?_⟩
      obtain ⟨pl, hpl'⟩ := Option.isSome_iff_exists.mp hpl
      rw [hpl']
      rfl

/-- Witness for C6: pausing all tracks kills the stored metering
interval handle `7` of the single loaded track. -/
theorem pause_zeroes_meters_witness :
    (1 ∈ pauseTargets (V := ℚ) none
        [(1, { waveform := true, playing := true, player := some {},
               volumeMeter := some 1, volumeMeterInterval := 7 })]) ∧
    (7:ℤ) ∉ ((pause (V := ℚ) none
        [(1, { waveform := true, playing := true, player := some {},
               volumeMeter := some 1, volumeMeterInterval := 7 })]
        { live := [7], next := 8 } 2).2.1).live := by
  have P := pause_zeroes_meters (V := ℚ) none
    [(1, { waveform := true, playing := true, player := some {},
           volumeMeter := some 1, volumeMeterInterval := 7 })]
    { live := [7], next := 8 } 2 _ _ _ rfl rfl rfl
  refine ⟨by decide, ?_⟩
  exact P.2.2.1 1 (by decide)
    { waveform := true, playing := true, player := some {},
      volumeMeter := some 1, volumeMeterInterval := 7 } rfl

/-! ## Playback Transport: `audioEvents.play` -/

/-- A `player.start(startAt, offset)` call observed by the transport. -/
structure StartEv where
  track : ℕ
  stem : Option Stem
  startAt : ℚ
  offset : Option ℚ
deriving DecidableEq, Repr

/-- The player starts `play` performs for one eligible track: when the
track has stems, every present stem player gets its playback rate set
to `adjustedBpm / bpm` (when both are truthy) and is started at
`(contextStartTime, time)`; otherwise the track-level player is started
at the same pair. -/
def startTrackPlayers {V : Type} (ct : ℚ) (adjusted bpm : Option ℚ) (id : ℕ)
    (tr : TrackAS V) : TrackAS V × List StartEv :=
  (tr.stems.map fun stems =>
    ({ tr with stems := some (stems.map fun p =>
        (p.2.player.map fun pl => (p.1, { p.2 with player := some { pl with
          playbackRate := if jsTruthyQ adjusted ∧ jsTruthyQ bpm
            then adjusted.getD 0 / bpm.getD 0 else pl.playbackRate,
          started := some (ct, tr.time) } })).getD p) },
     stems.filterMap fun p => p.2.player.map fun _ =>
       (⟨id, some p.1, ct, tr.time⟩ : StartEv))).getD
  ({ tr with player := tr.player.map fun pl => { pl with started := some (ct, tr.time) } },
   [⟨id, none, ct, tr.time⟩])

/-- The `for … of Object.entries(audioState)` loop of `play`, threading
the timer registry: each eligible track (waveform present, player
present, matching the optional `trackId` filter) has its metering timer
cleared, its players started from the shared `contextStartTime`, a new
metering interval stored, and its playing flag set. -/
def playLoop {V : Type} (ct : ℚ) (adjBpm bpmOf : ℕ → Option ℚ)
    (trackId? : Option ℕ) : AudioState V → Timers → AudioState V × Timers × List StartEv
  | [], T => ([], T, [])
  | p :: rest, T =>
    if p.2.waveform = true ∧ p.2.player.isSome ∧ (trackId? = none ∨ trackId? = some p.1) then
      let T1 := clearIntervalT p.2.volumeMeterInterval T
      let adjusted := adjBpm p.1
      let bpm := if jsTruthyQ adjusted then bpmOf p.1 else none
      let se := startTrackPlayers ct adjusted bpm p.1 p.2
      let hT2 := setIntervalT T1
      let tr2 := { se.1 with volumeMeterInterval := hT2.1, playing := true }
      let rest' := playLoop ct adjBpm bpmOf trackId? rest hT2.2
      ((p.1, tr2) :: rest'.1, rest'.2.1, se.2 ++ rest'.2.2)
    else
      let rest' := playLoop ct adjBpm bpmOf trackId? rest T
      (p :: rest'.1, rest'.2.1, rest'.2.2)

/-- Result of a `play` call: the new audio state, timer registry, the
player starts performed, and the clock read counter. -/
structure PlayResult (V : Type) where
  state : AudioState V
  timers : Timers
  events : List StartEv
  clockReads : ℕ

/-- `audioEvents.play(trackId?)`: awaits the context start, captures
the shared clock (`const contextStartTime = now()`) exactly once —
advancing the read counter from `reads` to `reads + 1` — and then runs
the track loop, passing that single captured value to every player
start.  `adjBpm` and `bpmOf` model the `getTrackPrefs` / `db.tracks`
reads. -/
def play {V : Type} (clock : ℕ → ℚ) (reads : ℕ) (adjBpm bpmOf : ℕ → Option ℚ)
    (trackId? : Option ℕ) (st : AudioState V) (T : Timers) : PlayResult V :=
  let contextStartTime := clock reads
  let r := playLoop contextStartTime adjBpm bpmOf trackId? st T
  ⟨r.1, r.2.1, r.2.2, reads + 1⟩

/-- Every start event of one track's players carries the captured clock
value, the track's id, and matches the stems shape: a track-level start
only for a stem-less track, a per-stem start only for a stem present in
the track's stems map. -/
theorem startTrackPlayers_events {V : Type} (ct : ℚ) (adjusted bpm : Option ℚ)
    (id : ℕ) (tr : TrackAS V) :
    ∀ e ∈ (startTrackPlayers ct adjusted bpm id tr).2,
      e.startAt = ct ∧ e.track = id ∧
        ((e.stem = none ∧ tr.stems = none) ∨
          ∃ s l, e.stem = some s ∧ tr.stems = some l ∧ s ∈ l.map Prod.fst) := by
  intro e he
  rw [startTrackPlayers] at he
  cases hs : tr.stems with
  | none =>
    rw [hs] at he
    simp only [Option.map_none', Option.getD_none] at he
    rcases List.mem_singleton.mp he with rfl
    exact ⟨rfl, rfl, Or.inl ⟨rfl, rfl⟩⟩
  | some stems =>
    rw [hs] at he
    simp only [Option.map_some', Option.getD_some] at he
    obtain ⟨p, hp, hmap⟩ := List.mem_filterMap.mp he
    obtain ⟨pl, -, hev⟩ := Option.map_eq_some'.mp hmap
    subst hev
    exact ⟨rfl, rfl, Or.inr ⟨p.1, stems, rfl, rfl, List.mem_map_of_mem Prod.fst hp⟩⟩

/-- Every start event of the play loop carries the shared clock value
and comes from a loaded track with the matching stems shape. -/
theorem playLoop_events {V : Type} (ct : ℚ) (adjBpm bpmOf : ℕ → Option ℚ)
    (trackId? : Option ℕ) :
    ∀ (st : AudioState V) (T : Timers),
      ∀ e ∈ (playLoop ct adjBpm bpmOf trackId? st T).2.2,
        e.startAt = ct ∧ ∃ tr : TrackAS V, (e.track, tr) ∈ st ∧
          ((e.stem = none ∧ tr.stems = none) ∨
            ∃ s l, e.stem = some s ∧ tr.stems = some l ∧ s ∈ l.map Prod.fst) := by
  intro st
  induction st with
  | nil => intro T e he; simp [playLoop] at he
  | cons p rest ih =>
    intro T e he
    rw [playLoop] at he
    by_cases hc : p.2.waveform = true ∧ p.2.player.isSome ∧
        (trackId? = none ∨ trackId? = some p.1)
    · rw [if_pos hc] at he
      simp only at he
      rcases List.mem_append.mp he with h | h
      · obtain ⟨h1, h2, h3⟩ := startTrackPlayers_events ct (adjBpm p.1)
          (if jsTruthyQ (adjBpm p.1) then bpmOf p.1 else none) p.1 p.2 e h
        refine ⟨h1, p.2, ?_, h3⟩
        rw [h2]
        exact List.mem_cons_self _ _
      · obtain ⟨h1, tr, hmem, hshape⟩ := ih _ e h
        exact ⟨h1, tr, List.mem_cons_of_mem _ hmem, hshape⟩
    · rw [if_neg hc] at he
      simp only at he
      obtain ⟨h1, tr, hmem, hshape⟩ := ih _ e he
      exact ⟨h1, tr, List.mem_cons_of_mem _ hmem, hshape⟩

/-- C1: `play` reads the shared clock exactly once per call — the read
counter advances by exactly one, and the result depends on the clock
only through the single value read before the track loop — and every
player started by the call (the track-level player of a stem-less
track, one player per stem otherwise) is scheduled from that identical
captured value. -/
theorem play_single_clock_read {V : Type} (clock clock' : ℕ → ℚ) (reads : ℕ)
    (adjBpm bpmOf : ℕ → Option ℚ) (trackId? : Option ℕ) (st : AudioState V)
    (T : Timers) :
    (play clock reads adjBpm bpmOf trackId? st T).clockReads = reads + 1 ∧
    (∀ e ∈ (play clock reads adjBpm bpmOf trackId? st T).events, e.startAt = clock reads) ∧
    (∀ e1 ∈ (play clock reads adjBpm bpmOf trackId? st T).events,
      ∀ e2 ∈ (play clock reads adjBpm bpmOf trackId? st T).events,
        e1.startAt = e2.startAt) ∧
    (∀ e ∈ (play clock reads adjBpm bpmOf trackId? st T).events,
      ∃ tr : TrackAS V, (e.track, tr) ∈ st ∧
        ((e.stem = none ∧ tr.stems = none) ∨
          ∃ s l, e.stem = some s ∧ tr.stems = some l ∧ s ∈ l.map Prod.fst)) ∧
    (clock reads = clock' reads →
      play clock reads adjBpm bpmOf trackId? st T =
        play clock' reads adjBpm bpmOf trackId? st T) := by
  have hev : ∀ e ∈ (play clock reads adjBpm bpmOf trackId? st T).events,
      e.startAt = clock reads ∧ ∃ tr : TrackAS V, (e.track, tr) ∈ st ∧
        ((e.stem = none ∧ tr.stems = none) ∨
          ∃ s l, e.stem = some s ∧ tr.stems = some l ∧ s ∈ l.map Prod.fst) := by
    intro e he
    exact playLoop_events (clock reads) adjBpm bpmOf trackId? st T e he
  refine ⟨rfl, fun e he => (hev e he).1, ?_, fun e he => (hev e he).2, ?_⟩
  · intro e1 h1 e2 h2
    rw [(hev e1 h1).1, (hev e2 h2).1]
  · intro h
    rw [play, play, h]

/-! ## Stem Lifecycle Coordinator (`validateTrackStemAccess` in `fileHandlers.ts`) -/

/-- Result of `stemsDirHandle.queryPermission({ mode: 'readwrite' })`,
including the `catch` path taken when the directory no longer exists. -/
inductive DirPermission
  | granted
  | denied
  | queryThrows
deriving DecidableEq, Repr

/-- The environment `validateTrackStemAccess` consults: track cache,
user preferences, track database and file system. -/
structure StemAccessEnv where
  cacheStems : Option (List (Stem × ℕ)) := none
  stemsDirHandle : Bool := false
  dirPermission : DirPermission := .granted
  trackName : Option String := none
  trackStemDirExists : Bool := false
  dirFiles : List String := []
deriving Repr

/-- `String.endsWith`, computed over the underlying character lists (a
suffix of `s` equals `post` exactly when the reversal of `s` starts
with the reversal of `post`). -/
def endsWithStr (s post : String) : Bool :=
  s.data.reverse.take post.data.length == post.data.reverse

/-- The file-name pattern "- (bass|vocals|other|drums)\.mp3$" used to
recognize stem files in the track's stem directory. -/
def stemOfFileName (name : String) : Option Stem :=
  if endsWithStr name "- drums.mp3" then some .drums
  else if endsWithStr name "- bass.mp3" then some .bass
  else if endsWithStr name "- vocals.mp3" then some .vocals
  else if endsWithStr name "- other.mp3" then some .other
  else none

/-- The number of distinct stem keys collected into `localStems` from
the directory's file names (`Object.keys(localStems).length`). -/
def localStemCount (files : List String) : ℕ :=
  (STEMS.filter fun s => files.any fun n => stemOfFileName n == some s).length

/-- The `checkAccess` body of `validateTrackStemAccess`, in source
order: cached stems → `ready`; no configured stems directory →
`selectStemDir`; permission query throwing → `selectStemDir`;
permission not granted → `grantStemDirAccess`; the re-entrancy guard
`if (stemState === 'processingStems') return stemState`; missing track
name or missing per-track stem directory → `getStems`; fewer than 4
recognized stem files → `getStems`; otherwise the stems are cached and
the state is `ready`. -/
def checkAccess (stemState : Option StemState) (env : StemAccessEnv) : StemState :=
  if env.cacheStems.isSome then .ready
  else if !env.stemsDirHandle then .selectStemDir
  else match env.dirPermission with
    | .queryThrows => .selectStemDir
    | .denied => .grantStemDirAccess
    | .granted =>
      if stemState = some .processingStems then .processingStems
      else match env.trackName with
        | none => .getStems
        | some _ =>
          if !env.trackStemDirExists then .getStems
          else if localStemCount env.dirFiles < 4 then .getStems
          else .ready

/-- `validateTrackStemAccess(trackId)`: runs `checkAccess` and writes
the resulting phase into the track's audio state when it differs from
the stored one; returns the phase.  A phase of `getStems` is what lets
the caller trigger a (new) generation workflow. -/
def validateTrackStemAccess {V : Type} (trackId : ℕ) (env : StemAccessEnv)
    (st : AudioState V) : StemState × AudioState V :=
  let stemState := (lookupTrack trackId st).bind (·.stemState)
  let accessState := checkAccess stemState env
  (accessState,
    if stemState = some accessState then st
    else mapTracks (· = trackId) (fun _ tr => { tr with stemState := some accessState }) st)

/-- Counterexample to C5: the re-entrancy guard covers only
`processingStems`.  In the non-terminal generation phase
`uploadingFile` (directory configured and granted, stem directory not
yet created), the check returns `getStems` — not the current phase —
which triggers a second workflow. -/
theorem checkAccess_uploadingFile_not_guarded :
    checkAccess (some .uploadingFile)
      { cacheStems := none, stemsDirHandle := true, dirPermission := .granted,
        trackName := some "x.mp3", trackStemDirExists := false, dirFiles := [] } =
      .getStems ∧
    StemState.getStems ≠ .uploadingFile := by
  constructor
  · rfl
  · decide

/-- C5 (amended): only the `processingStems` phase is guarded: when the
stored phase is `processingStems`, the cache has no stems and the
configured stems directory is accessible, `validateTrackStemAccess`
returns the current phase unchanged, leaves the state untouched and
does not return `getStems` (the generation trigger). -/
theorem validate_processing_guard {V : Type} (trackId : ℕ) (env : StemAccessEnv)
    (st : AudioState V) (tr : TrackAS V)
    (hlk : lookupTrack trackId st = some tr)
    (hphase : tr.stemState = some .processingStems)
    (hcache : env.cacheStems = none)
    (hdir : env.stemsDirHandle = true)
    (hperm : env.dirPermission = .granted) :
    (validateTrackStemAccess trackId env st).1 = .processingStems ∧
    (validateTrackStemAccess trackId env st).2 = st ∧
    (validateTrackStemAccess trackId env st).1 ≠ .getStems := by
  have hstate : (lookupTrack trackId st).bind (·.stemState) = some .processingStems := by
    rw [hlk, Option.some_bind, hphase]
  have hchk : checkAccess ((lookupTrack trackId st).bind (·.stemState)) env =
      .processingStems := by
    rw [hstate, checkAccess, hcache]
    simp only [Option.isSome_none, Bool.false_eq_true, if_false, hdir, Bool.not_true, hperm]
    rfl
  have hchk2 : checkAccess (some .processingStems) env = .processingStems := by
    rw [← hstate]; exact hchk
  refine ⟨?_, ?_, ?_⟩
  · rw [validateTrackStemAccess]
    exact hchk
  · rw [validateTrackStemAccess]
    simp only [hstate, hchk2, if_pos rfl]
    rfl
  · rw [validateTrackStemAccess]
    simp only [hchk]
    decide

/-- Witness for C5 (amended) on a one-track state in `processingStems`
with an accessible stems directory. -/
theorem validate_processing_guard_witness :
    (validateTrackStemAccess (V := ℚ) 1
      { cacheStems := none, stemsDirHandle := true, dirPermission := .granted,
        trackName := some "x.mp3", trackStemDirExists := false, dirFiles := [] }
      [(1, { stemState := some .processingStems })]).1 = .processingStems ∧
    (validateTrackStemAccess (V := ℚ) 1
      { cacheStems := none, stemsDirHandle := true, dirPermission := .granted,
        trackName := some "x.mp3", trackStemDirExists := false, dirFiles := [] }
      [(1, { stemState := some .processingStems })]).2 =
      [(1, { stemState := some .processingStems })] ∧
    (validateTrackStemAccess (V := ℚ) 1
      { cacheStems := none, stemsDirHandle := true, dirPermission := .granted,
        trackName := some "x.mp3", trackStemDirExists := false, dirFiles := [] }
      [(1, { stemState := some .processingStems })]).1 ≠ .getStems :=
  validate_processing_guard 1 _ _ { stemState := some .processingStems }
    rfl rfl rfl rfl rfl

/-! ## Track cache stems writes (`storeTrackCache` / the `stemAudio` download loop) -/

/-- The `stems` object of a `TrackCache` row: each of the four stems is
present (with a file, numbered abstractly) or absent. -/
structure StemsCache where
  drums : Option ℕ := none
  bass : Option ℕ := none
  vocals : Option ℕ := none
  other : Option ℕ := none
deriving DecidableEq, Repr

/-- One field of the JS object spread `{ ...old, ...new }`: the new
value wins when present. -/
def jsSpread (o n : Option ℕ) : Option ℕ :=
  match n with
  | some v => some v
  | none => o

@[simp] theorem jsSpread_some (o : Option ℕ) (v : ℕ) : jsSpread o (some v) = some v := rfl

@[simp] theorem jsSpread_none (o : Option ℕ) : jsSpread o none = o := rfl

/-- `{ ...cache.stems, ...stems }`. -/
def mergeStems (old new : StemsCache) : StemsCache :=
  { drums := jsSpread old.drums new.drums,
    bass := jsSpread old.bass new.bass,
    vocals := jsSpread old.vocals new.vocals,
    other := jsSpread old.other new.other }

/-- The singleton stems object `{ [type]: { file } }` the download loop
passes to `storeTrackCache`. -/
def singletonStems (s : Stem) (f : ℕ) : StemsCache :=
  match s with
  | .drums => { drums := some f }
  | .bass => { bass := some f }
  | .vocals => { vocals := some f }
  | .other => { other := some f }

/-- A `trackCache` row: the source file and the stems object. -/
structure TrackCacheRec where
  file : Option ℕ := none
  stems : Option StemsCache := none
deriving DecidableEq, Repr

/-- `storeTrackCache({id, file?, stems?})` for one track: a missing
`file` falls back to the cached one, and when the cache already holds a
stems object the new stems are spread over it
(`stems = { ...cache.stems, ...stems }`); the row is then put back.
(The `CACHE_LIMIT` eviction concerns other tracks' rows and is not
modelled.) -/
def storeTrackCache (file? : Option ℕ) (stems? : Option StemsCache)
    (cache : Option TrackCacheRec) : TrackCacheRec :=
  let file := if file?.isNone then cache.bind (·.file) else file?
  let stems := match cache.bind (·.stems) with
    | some cs => some (mergeStems cs (stems?.getD {}))
    | none => stems?
  { file := file, stems := stems }

/-- The `stemAudio` download loop: each fetched stem is written to disk
and then cached with `storeTrackCache({id, stems: {[type]: {file}}})`,
one stem at a time.  Returns the cache row after each write — the
observable states. -/
def downloadLoop : List (Stem × ℕ) → Option TrackCacheRec → List TrackCacheRec
  | [], _ => []
  | (s, f) :: rest, cache =>
    let c' := storeTrackCache none (some (singletonStems s f)) cache
    c' :: downloadLoop rest (some c')

/-- Number of stems present in a stems object. -/
def stemCount (c : StemsCache) : ℕ :=
  ([c.drums, c.bass, c.vocals, c.other].filter Option.isSome).length

/-- All four stems present. -/
def stemsComplete (c : StemsCache) : Prop :=
  c.drums.isSome ∧ c.bass.isSome ∧ c.vocals.isSome ∧ c.other.isSome

/-- Counterexample to C9: after the first `storeTrackCache` write of
the download loop (drums first, as `checkForStems` fetches the stems in
`STEMS` order), the cached stems object holds exactly one stem — an
observable partial stems map, neither empty nor complete. -/
theorem downloadLoop_partial_state :
    (downloadLoop [(Stem.drums, 1), (.bass, 2), (.vocals, 3), (.other, 4)]
        (some { file := some 9, stems := none })).head? =
      some { file := some 9, stems := some { drums := some 1 } } ∧
    stemCount { drums := some 1 } = 1 ∧
    (1 : ℕ) ≠ 0 ∧ (1 : ℕ) ≠ 4 := by
  refine ⟨rfl, rfl, by decide, by decide⟩

/-- The cache row after the `stemAudio` download loop finishes. -/
def downloadLoopFinal : List (Stem × ℕ) → Option TrackCacheRec → Option TrackCacheRec
  | [], cache => cache
  | (s, f) :: rest, cache =>
    downloadLoopFinal rest (some (storeTrackCache none (some (singletonStems s f)) cache))

/-- C9 (amended): the four-stem shape is restored at the end of the
workflow — after the download loop has written all four stems (drums,
bass, vocals, other, as `checkForStems` fetches them) the cached stems
object is complete — and the directory-scan path of
`validateTrackStemAccess` only caches a stems object when at least four
distinct stem names matched, which forces all four; the loop's
intermediate writes, however, leave observable partial maps (see the
counterexample). -/
theorem stems_cache_complete (f1 f2 f3 f4 : ℕ) (cache : Option TrackCacheRec)
    (files : List String) (hfour : 4 ≤ localStemCount files) :
    (∀ c : TrackCacheRec,
      downloadLoopFinal [(Stem.drums, f1), (.bass, f2), (.vocals, f3), (.other, f4)] cache =
        some c → ∃ sc, c.stems = some sc ∧ stemsComplete sc) ∧
    ∀ s ∈ STEMS, files.any fun n => stemOfFileName n == some s := by
  constructor
  · intro c hc
    rcases cache with _ | ⟨⟨file0, stems0⟩⟩
    · simp only [downloadLoopFinal, storeTrackCache, singletonStems, mergeStems,
        jsSpread_some, jsSpread_none, Option.some_bind, Option.none_bind,
        Option.getD_some, Option.isNone_none, if_true, Option.some_inj] at hc
      subst hc
      exact ⟨_, rfl, by simp [stemsComplete]⟩
    · rcases stems0 with _ | sc0 <;>
      · simp only [downloadLoopFinal, storeTrackCache, singletonStems, mergeStems,
          jsSpread_some, jsSpread_none, Option.some_bind, Option.none_bind,
          Option.getD_some, Option.isNone_none, if_true, Option.some_inj] at hc
        subst hc
        exact ⟨_, rfl, by simp [stemsComplete]⟩
  · intro s hs
    have hle : (STEMS.filter fun s => files.any fun n => stemOfFileName n == some s).length ≤
        STEMS.length := List.length_filter_le _ _
    have heq : (STEMS.filter fun s => files.any fun n => stemOfFileName n == some s).length =
        STEMS.length := le_antisymm hle (le_trans hfour (le_refl _))
    have hall := List.filter_length_eq_length.mp heq
    simpa using hall s hs

/-- Witness for C9 (amended) with an empty starting cache and a
directory containing the four stem files. -/
theorem stems_cache_complete_witness :
    (4 ≤ localStemCount ["a - drums.mp3", "a - bass.mp3", "a - vocals.mp3", "a - other.mp3"]) ∧
    ∀ s ∈ STEMS, (["a - drums.mp3", "a - bass.mp3", "a - vocals.mp3",
      "a - other.mp3"].any fun n => stemOfFileName n == some s) := by
  constructor
  · decide
  · exact (stems_cache_complete 1 2 3 4 none
      ["a - drums.mp3", "a - bass.mp3", "a - vocals.mp3", "a - other.mp3"] (by decide)).2

/-! ## Event Dispatcher (`audioEvent` in `audioEvents.ts` / `audioEvents.destroy`) -/

/-- A window event handler.  `audioEvent.on(trackId, callback)`
registers the *anonymous wrapper* `(e) => callback(e.detail)` it builds
around the callback; `audioEvent.off(trackId, callback)` passes the
*raw callback* to `removeEventListener`.  The two are distinct
functions. -/
inductive Handler
  | wrapper (cb : ℕ)
  | callback (cb : ℕ)
deriving DecidableEq, Repr

/-- The window's registered event listeners, keyed by `String(trackId)`. -/
abbrev WindowListeners := List (ℕ × Handler)

/-- `window.addEventListener(key, f)`. -/
def addEventListener (key : ℕ) (f : Handler) (w : WindowListeners) : WindowListeners :=
  w ++ [(key, f)]

/-- `window.removeEventListener(key, f)`: removes a listener only when
the very same function object was registered under the key. -/
def removeEventListener (key : ℕ) (f : Handler) (w : WindowListeners) : WindowListeners :=
  w.filter fun p => ¬(p.1 = key ∧ p.2 = f)

/-- `audioEvent.on(trackId, callback)`: registers the wrapper. -/
def audioEventOn (trackId cb : ℕ) (w : WindowListeners) : WindowListeners :=
  addEventListener trackId (.wrapper cb) w

/-- `audioEvent.off(trackId, callback)`: attempts to remove the raw
callback. -/
def audioEventOff (trackId cb : ℕ) (w : WindowListeners) : WindowListeners :=
  removeEventListener trackId (.callback cb) w

/-- `audioEvent.emit(trackId, event, args)`: the handlers the
dispatched `CustomEvent` reaches, in registration order. -/
def audioEventEmit (trackId : ℕ) (w : WindowListeners) : List Handler :=
  (w.filter fun p => p.1 = trackId).map (·.2)

/-- `audioEvents.destroy(trackId)`: destroys the waveform and deletes
the track's audio state entry (`delete prev[trackId]`). -/
def destroy {V : Type} (trackId : ℕ) (st : AudioState V) : AudioState V :=
  st.filter fun p => p.1 ≠ trackId

/-- C8 at the failing input: `destroy` does remove the Track Audio
State entry, but an event emitted for the id after `off` (the
unregistration `destroy`'s event-handler teardown performs) still
reaches the listener registered before it: `removeEventListener` was
passed the raw callback while `addEventListener` got the anonymous
wrapper, so nothing is removed.  Generally, a wrapper registered by
`on` survives the matching `off` and keeps receiving every emit. -/
theorem destroy_stale_listener_delivery :
    (∀ (w : WindowListeners) (tid cb : ℕ),
      Handler.wrapper cb ∈ audioEventEmit tid (audioEventOff tid cb (audioEventOn tid cb w))) ∧
    lookupTrack 1 (destroy (V := ℚ) 1 [(1, { waveform := true })]) = none ∧
    audioEventEmit 1 (audioEventOff 1 7 (audioEventOn 1 7 [])) = [Handler.wrapper 7] ∧
    Handler.wrapper 7 ≠ Handler.callback 7 := by
  refine ⟨?_, rfl, rfl, by decide⟩
  intro w tid cb
  rw [audioEventEmit, audioEventOff, audioEventOn, addEventListener, removeEventListener]
  refine List.mem_map.mpr ⟨(tid, Handler.wrapper cb), ?_, rfl⟩
  rw [List.mem_filter]
  refine ⟨?_, by simp⟩
  rw [List.mem_filter]
  refine ⟨List.mem_append_right _ (List.mem_singleton.mpr rfl), by simp⟩

end Mixpoint
